import Mathlib

/-!
A shallow embedding of pythontools/timestamp.py (class TimeStamp) and proofs
about its behaviour.

Modelling conventions:
* Wall-clock instants and elapsed times are rationals (`ℚ`); every call to
  time.time() inside a method is passed in as an explicit argument `now`.
  Two adjacent time.time() calls inside one method body are modelled as the
  same instant.
* The class keeps parallel lists (timeList/markList for the counters and
  otherTime/otherMark/otherInd for the imported sub-counters); the embedding
  keeps the same parallel lists.
* pdb.set_trace sites abort the call: the module never imports set_trace, so
  those statements raise NameError and the rest of the method body does not
  run.  Each such site is modelled as a typed error (`Err`) following the
  message printed there; raw Python exceptions (IndexError from indexing an
  empty array, ValueError from max() on an empty sequence) get their own
  error values.
* Output of the reporting method is modelled as a structured list of lines
  carrying the raw numeric values; the fixed-width column formatting and the
  sec/min/percent rendering of `_tstr` are pure string formatting and are
  abstracted away (note `self.fullTime` is an np.float64, so the percentage
  division never raises even when the total is zero).
-/

/-- Failure outcomes of a call. `emptyState`, `notFound` and `invalidArgument`
model the three set_trace abort sites following the diagnostic printed there;
`indexError` models a raw IndexError (indexing position 0 of an empty index
array), `valueError` a raw ValueError (max() over an empty sequence). -/
inductive Err where
  | emptyState
  | notFound
  | invalidArgument
  | indexError
  | valueError
  deriving Repr, DecidableEq

/-- State of one TimeStamp object: the parallel lists of the Python class plus
the display fields that print_time_usage stores on self. -/
structure TimeStamp where
  timeList : List ℚ
  markList : List String
  prevTime : ℚ
  otherTime : List ℚ
  otherMark : List String
  otherInd : List Nat
  verbose : Bool
  minutes : Bool
  percent : Bool
  fullTime : ℚ
  deriving Repr, DecidableEq

/-- Indices (in increasing order, starting the count at `i`) of the entries on
which the predicate holds.  `idxWhere p xs 0` models
np.nonzero(elementwise-predicate over xs)[0]. -/
def idxWhere {α : Type} (p : α → Bool) : List α → Nat → List Nat
  | [], _ => []
  | x :: xs, i => if p x then i :: idxWhere p xs (i + 1) else idxWhere p xs (i + 1)

/-- Index of the first entry on which the predicate holds, if any.  Used by the
spec-side definitions ("the first counter with the same label"). -/
def firstIdx {α : Type} (p : α → Bool) : List α → Option Nat
  | [] => none
  | x :: xs => if p x then some 0 else (firstIdx p xs).map (fun n => n + 1)

/-- The Python expression `self.markList == mark` compares a list with a
string.  Python resolves this with the default equality of unrelated types, so
it evaluates to False for every list and every string; numpy never sees
elementwise data.  (np.nonzero of that scalar then yields an empty index
array.) -/
def pyListEqStr (_xs : List String) (_m : String) : Bool := false

/-- np.nonzero on the scalar result of a list-vs-string comparison: an empty
index list when the scalar is False, [0] when it is True. -/
def npNonzeroScalar (b : Bool) : List Nat := if b then [0] else []

/-- np.nonzero(np.array(xs) == m)[0] for a list of strings: the indices whose
entry equals `m`. -/
def npNonzeroStrEq (xs : List String) (m : String) : List Nat :=
  idxWhere (fun x => x == m) xs 0

/-- np.nonzero(np.array(xs) == c)[0] for a list of naturals. -/
def npNonzeroNatEq (xs : List Nat) (c : Nat) : List Nat :=
  idxWhere (fun x => x == c) xs 0

/-- np.nonzero((np.array(marks) == m) & (np.array(inds) == c))[0]: the indices
at which both parallel lists match.  numpy requires the two arrays to have the
same length (true for every reachable state), which the zip models. -/
def npNonzeroPairEq (marks : List String) (inds : List Nat) (m : String) (c : Nat) :
    List Nat :=
  idxWhere (fun q => q.1 == m && q.2 == c) (marks.zip inds) 0

/-- Python max(xs, key=len): ValueError on an empty sequence, otherwise the
first element of maximal length. -/
def pyMaxByLen : List String → Except Err String
  | [] => Except.error Err.valueError
  | x :: xs =>
      Except.ok (xs.foldl (fun best y => if best.length < y.length then y else best) x)

/-- One element of set(xs): keep the accumulator when the element was already
seen, else record it. -/
def pySetStep (acc : List String) (x : String) : List String :=
  if x ∈ acc then acc else acc ++ [x]

/-- Python set(xs): the distinct elements.  Python iterates a set in an
implementation-defined order; the model fixes first-occurrence order. -/
def pySet (xs : List String) : List String :=
  xs.foldl pySetStep []

namespace TimeStamp

/-- The constructor __init__: empty lists, the clock mark set to the current
time.  Python leaves minutes/percent/fullTime unset until the first report;
the model gives them inert defaults. -/
def init (now : ℚ) (verbose : Bool) : TimeStamp :=
  { timeList := [], markList := [], prevTime := now,
    otherTime := [], otherMark := [], otherInd := [],
    verbose := verbose, minutes := false, percent := false, fullTime := 0 }

/-- set_time (spec: stamp): append the elapsed interval under the given mark
and restart the clock. -/
def set_time (s : TimeStamp) (now : ℚ) (mark : String) : TimeStamp :=
  { s with timeList := s.timeList ++ [now - s.prevTime],
           markList := s.markList ++ [mark],
           prevTime := now }

/-- start_time (spec: reset): restart the clock without creating a counter. -/
def start_time (s : TimeStamp) (now : ℚ) : TimeStamp :=
  { s with prevTime := now }

/-- get_time (spec: getElapsed).  Aborts when no counters exist; with no mark
returns the last interval; with a mark it runs
np.nonzero(self.markList == mark)[0] — whose index array is always empty, see
`pyListEqStr` — and aborts when that array is empty, else returns the entry at
its first index. -/
def get_time (s : TimeStamp) (mark : Option String) : Except Err ℚ :=
  match s.timeList.getLast?, mark with
  | none, _ => Except.error Err.emptyState
  | some t, none => Except.ok t
  | some _, some m =>
      let ind_mark := npNonzeroScalar (pyListEqStr s.markList m)
      match ind_mark.head? with
      | none => Except.error Err.notFound
      | some i => Except.ok (s.timeList.getD i 0)

/-- One iteration of the add_counters loop: append a zero counter under this
mark and record the index it got. -/
def add_counters_step (acc : List Nat × TimeStamp) (imark : String) :
    List Nat × TimeStamp :=
  let st := acc.2
  let st2 := { st with timeList := st.timeList ++ [0],
                       markList := st.markList ++ [imark] }
  (acc.1 ++ [st2.timeList.length - 1], st2)

/-- add_counters (spec: declareCounters): append a zero counter per mark and
collect the indices assigned to them. -/
def add_counters (s : TimeStamp) (marks : List String) : List Nat × TimeStamp :=
  marks.foldl add_counters_step ([], s)

/-- One iteration of the copy_times loop over (itime, imark): look for
already-started counters with the same mark (np.array conversion here, so the
comparison really is elementwise); append when none exists, else add onto the
first one. -/
def copy_times_step (st : TimeStamp) (itime : ℚ) (imark : String) : TimeStamp :=
  match (npNonzeroStrEq st.markList imark).head? with
  | some i => { st with timeList := st.timeList.set i (st.timeList.getD i 0 + itime) }
  | none => { st with timeList := st.timeList ++ [itime],
                      markList := st.markList ++ [imark] }

/-- copy_times (spec: mergeFlat): no-op when the other list has recorded
nothing, else fold the loop body over the other recorder's counters. -/
def copy_times (s other : TimeStamp) : TimeStamp :=
  if other.timeList.isEmpty then s
  else
    (other.timeList.zip other.markList).foldl
      (fun st p => copy_times_step st p.1 p.2) s

/-- One iteration of the import_times loop: when sub-counters exist, look for
one with the same mark attached to the same internal index; add onto the first
such entry, else append a new (time, mark, index) triple. -/
def import_times_step (currIndex : Nat) (st : TimeStamp) (itime : ℚ) (imark : String) :
    TimeStamp :=
  let ind : List Nat :=
    if 0 < st.otherMark.length then npNonzeroPairEq st.otherMark st.otherInd imark currIndex
    else []
  match ind.head? with
  | some i => { st with otherTime := st.otherTime.set i (st.otherTime.getD i 0 + itime) }
  | none => { st with otherTime := st.otherTime ++ [itime],
                      otherMark := st.otherMark ++ [imark],
                      otherInd := st.otherInd ++ [currIndex] }

/-- import_times (spec: mergeNested): no-op when the other list has recorded
nothing; otherwise the attachment index is len(self.timeList) at call time and
the loop body folds over the other recorder's counters.  Only other.timeList
and other.markList are read; the other recorder's own sub-lists are not
imported. -/
def import_times (s other : TimeStamp) : TimeStamp :=
  if other.timeList.isEmpty then s
  else
    (other.timeList.zip other.markList).foldl
      (fun st p => import_times_step s.timeList.length st p.1 p.2) s

/-- increase_time (spec: accumulate).  With an index, add the open interval
onto that counter (a raw IndexError for an out-of-range index; Python's
negative indices are not used by any caller and are not modelled).  With a
mark, run np.nonzero(self.markList == mark)[0][0]: the index array is always
empty (see `pyListEqStr`), so position 0 raises IndexError before any
mutation.  With neither, abort (InvalidArgument).  Only on success is the
clock mark advanced, since the assignment sits after the failing statements. -/
def increase_time (s : TimeStamp) (now : ℚ) (mark : Option String) (index : Option Nat) :
    Except Err Unit × TimeStamp :=
  match index with
  | some i =>
      if i < s.timeList.length then
        (Except.ok (),
         { s with timeList := s.timeList.set i (s.timeList.getD i 0 + (now - s.prevTime)),
                  prevTime := now })
      else (Except.error Err.indexError, s)
  | none =>
      match mark with
      | some m =>
          let ind := npNonzeroScalar (pyListEqStr s.markList m)
          match ind.head? with
          | some i =>
              (Except.ok (),
               { s with timeList := s.timeList.set i (s.timeList.getD i 0 + (now - s.prevTime)),
                        prevTime := now })
          | none => (Except.error Err.indexError, s)
      | none => (Except.error Err.invalidArgument, s)

end TimeStamp

/-- One printed line of print_time_usage, carrying the raw values that the
format strings would render.  `caption` keeps the total and the minutes flag
(the rendering divides by 60 when minutes is set); `counter` is a top-level
line, `sub` an indented sub-counter line of detailed mode, `subSum` a combined
sub-counter line of sub mode. -/
inductive Line where
  | blank
  | rule
  | caption (text : String) (total : ℚ) (minutes : Bool)
  | counter (label : String) (t : ℚ)
  | sub (label : String) (t : ℚ)
  | subSum (label : String) (t : ℚ)
  deriving Repr, DecidableEq

/-- The four header prints: a blank line, a rule, the caption with the full
time, a rule. -/
def reportHeader (caption : Option String) (total : ℚ) (minutes : Bool) : List Line :=
  [Line.blank, Line.rule, Line.caption (caption.getD "Finished ") total minutes, Line.rule]

/-- The counter loop of detailed/top mode: one line per counter in order; in
detailed mode, beneath each counter one line per sub-counter whose internal
index equals that counter's index. -/
def counterLines (s : TimeStamp) (mode : String) : List Line :=
  (s.markList.enum).foldl
    (fun acc p =>
      let acc2 := acc ++ [Line.counter p.2 (s.timeList.getD p.1 0)]
      if mode = "detailed" then
        acc2 ++ (npNonzeroNatEq s.otherInd p.1).map
          (fun j => Line.sub (s.otherMark.getD j "") (s.otherTime.getD j 0))
      else acc2)
    []

/-- The body of one iteration of the sub-mode loop: the indices of the
sub-counters bearing this mark (never empty, since the mark comes from
set(otherMark); the internal set_trace guard on the empty case is modelled as
an abort that never fires), and their summed time. -/
def subLineStep (s : TimeStamp) (acc : List Line) (isub : String) :
    Except Err (List Line) :=
  let ind_this := npNonzeroStrEq s.otherMark isub
  if ind_this.isEmpty then Except.error Err.notFound
  else
    Except.ok (acc ++ [Line.subSum isub
      ((ind_this.map (fun j => s.otherTime.getD j 0)).sum)])

namespace TimeStamp

/-- print_time_usage (spec: report): validate the mode before any output,
store the display flags and the total on self, print the header, then either
the counter lines (detailed/top; the label column width is max(markList,
key=len), a ValueError on an empty list) or the combined sub-counter lines
(sub; column width from max over set(otherMark), a ValueError on an empty
set).  Returns the lines printed before termination, the outcome, and the
resulting state. -/
def print_time_usage (s : TimeStamp) (caption : Option String) (mode : String)
    (minutes percent : Bool) : List Line × Except Err Unit × TimeStamp :=
  if ¬ (mode = "detailed" ∨ mode = "top" ∨ mode = "sub") then
    ([], Except.error Err.invalidArgument, s)
  else
    let s1 : TimeStamp :=
      { s with minutes := minutes, percent := percent, fullTime := s.timeList.sum }
    let header := reportHeader caption s1.fullTime minutes
    if mode = "detailed" ∨ mode = "top" then
      match pyMaxByLen s1.markList with
      | Except.error e => (header, Except.error e, s1)
      | Except.ok _ =>
          (header ++ counterLines s1 mode ++ [Line.rule, Line.blank],
           Except.ok (), s1)
    else
      match pyMaxByLen (pySet s1.otherMark) with
      | Except.error e => (header, Except.error e, s1)
      | Except.ok _ =>
          match (pySet s1.otherMark).foldlM (subLineStep s1) [] with
          | Except.error e => (header, Except.error e, s1)
          | Except.ok body =>
              (header ++ body ++ [Line.rule, Line.blank], Except.ok (), s1)

end TimeStamp

/-- The operations of the recorder, with every clock reading passed
explicitly. -/
inductive Op where
  | stamp (now : ℚ) (mark : String)
  | reset (now : ℚ)
  | declare (marks : List String)
  | accumulate (now : ℚ) (mark : Option String) (index : Option Nat)
  | mergeFlat (other : TimeStamp)
  | mergeNested (other : TimeStamp)
  | getElapsed (mark : Option String)
  | report (caption : Option String) (mode : String) (minutes percent : Bool)

/-- Run one operation on a state: the call's outcome plus the state the object
is left in (mutations made before an abort are kept, faithful to the source's
statement order). -/
def runOp (s : TimeStamp) : Op → Except Err Unit × TimeStamp
  | Op.stamp now m => (Except.ok (), s.set_time now m)
  | Op.reset now => (Except.ok (), s.start_time now)
  | Op.declare marks => (Except.ok (), (s.add_counters marks).2)
  | Op.accumulate now m i => s.increase_time now m i
  | Op.mergeFlat o => (Except.ok (), s.copy_times o)
  | Op.mergeNested o => (Except.ok (), s.import_times o)
  | Op.getElapsed m =>
      match s.get_time m with
      | Except.ok _ => (Except.ok (), s)
      | Except.error e => (Except.error e, s)
  | Op.report c mode mi pe =>
      let r := s.print_time_usage c mode mi pe
      (r.2.1, r.2.2)

/-- The flat merge as the spec words it, per processed counter: find the first
counter of self with the same label; if found, add the other's elapsed value
onto it; if not found, append it as a new counter. -/
def specMergeFlatStep (st : TimeStamp) (t : ℚ) (m : String) : TimeStamp :=
  match firstIdx (fun x => x == m) st.markList with
  | some i => { st with timeList := st.timeList.set i (st.timeList.getD i 0 + t) }
  | none => { st with timeList := st.timeList ++ [t],
                      markList := st.markList ++ [m] }

/-- The flat merge as the spec words it: process the other recorder's counters
in order. -/
def specMergeFlat (s other : TimeStamp) : TimeStamp :=
  (other.timeList.zip other.markList).foldl
    (fun st p => specMergeFlatStep st p.1 p.2) s

/-- The nested merge as the spec words it, per processed counter: if the
attachments already contain an entry with this label and this anchor, add onto
that entry's elapsed value; otherwise append the attachment triple. -/
def specMergeNestedStep (anchor : Nat) (st : TimeStamp) (t : ℚ) (m : String) :
    TimeStamp :=
  match firstIdx (fun q => q.1 == m && q.2 == anchor) (st.otherMark.zip st.otherInd) with
  | some i => { st with otherTime := st.otherTime.set i (st.otherTime.getD i 0 + t) }
  | none => { st with otherTime := st.otherTime ++ [t],
                      otherMark := st.otherMark ++ [m],
                      otherInd := st.otherInd ++ [anchor] }

/-- The nested merge as the spec words it: the anchor is the number of
counters of self at call time, and the other recorder's counters are processed
in order. -/
def specMergeNested (s other : TimeStamp) : TimeStamp :=
  (other.timeList.zip other.markList).foldl
    (fun st p => specMergeNestedStep s.timeList.length st p.1 p.2) s

/-- Shifting the start index of idxWhere shifts every reported index. -/
theorem idxWhere_shift {α : Type} (p : α → Bool) (xs : List α) (i : Nat) :
    idxWhere p xs (i + 1) = (idxWhere p xs i).map (fun n => n + 1) := by
  induction xs generalizing i with
  | nil => simp [idxWhere]
  | cons x xs ih =>
      by_cases h : p x <;> simp [idxWhere, h, ih]

/-- The first index reported by idxWhere is the first index on which the
predicate holds. -/
theorem head?_idxWhere {α : Type} (p : α → Bool) (xs : List α) :
    (idxWhere p xs 0).head? = firstIdx p xs := by
  induction xs with
  | nil => rfl
  | cons x xs ih =>
      by_cases h : p x
      · simp [idxWhere, firstIdx, h]
      · simp [idxWhere, firstIdx, h, idxWhere_shift p xs 0, ← ih]

/-- A mark occurring in the list yields a nonempty index list. -/
theorem idxWhere_ne_nil_of_mem {m : String} {xs : List String} (hm : m ∈ xs) :
    ∀ i, idxWhere (fun x => x == m) xs i ≠ [] := by
  induction xs with
  | nil => cases hm
  | cons x xs ih =>
      intro i
      by_cases h : (x == m) = true
      · simp [idxWhere, h]
      · have hm2 : m ∈ xs := by
          rcases List.mem_cons.mp hm with rfl | hm2
          · exact absurd (by simp) h
          · exact hm2
        simp only [idxWhere, h, if_false]
        exact ih hm2 (i + 1)

/-- The source's per-counter step of copy_times does exactly what the spec's
sentence describes. -/
theorem copy_times_step_eq_spec (st : TimeStamp) (t : ℚ) (m : String) :
    TimeStamp.copy_times_step st t m = specMergeFlatStep st t m := by
  unfold TimeStamp.copy_times_step specMergeFlatStep npNonzeroStrEq
  rw [head?_idxWhere]

/-- Folding the copy_times step only ever appends to the mark list. -/
theorem copy_times_fold_markList (l : List (ℚ × String)) :
    ∀ st : TimeStamp, ∃ t, st.markList ++ t =
      (l.foldl (fun st p => TimeStamp.copy_times_step st p.1 p.2) st).markList := by
  induction l with
  | nil => exact fun st => ⟨[], by simp⟩
  | cons p l ih =>
      intro st
      have hstep : ∃ u, st.markList ++ u = (TimeStamp.copy_times_step st p.1 p.2).markList := by
        unfold TimeStamp.copy_times_step
        split
        · exact ⟨[], by simp⟩
        · exact ⟨[p.2], rfl⟩
      obtain ⟨u, hu⟩ := hstep
      obtain ⟨t2, ht2⟩ := ih (TimeStamp.copy_times_step st p.1 p.2)
      exact ⟨u ++ t2, by rw [List.foldl_cons, ← List.append_assoc, hu, ht2]⟩

/-- C1: mergeFlat(other) — for each counter (label, t) of other.counters in
order, t is added onto the first counter of self with the same label when one
exists, else (label, t) is appended (equality with the spec-side definition);
the call is a no-op when other has no counters; and the pre-existing counters
of self keep their order and indices (the old label sequence starts the new
one).  The other recorder is a plain argument of the pure model, hence
untouched. -/
theorem c1_mergeFlat_correct (s other : TimeStamp) :
    s.copy_times other = specMergeFlat s other ∧
    s.copy_times { other with timeList := [] } = s ∧
    ∃ t, s.markList ++ t = (s.copy_times other).markList := by
  have hf : (fun (st : TimeStamp) (p : ℚ × String) => TimeStamp.copy_times_step st p.1 p.2)
          = (fun st p => specMergeFlatStep st p.1 p.2) := by
    funext st p; exact copy_times_step_eq_spec st p.1 p.2
  refine ⟨?_, ?_, ?_⟩
  · unfold TimeStamp.copy_times specMergeFlat
    by_cases h : other.timeList.isEmpty
    · rw [if_pos h]
      have hnil : other.timeList = [] := by simpa using h
      simp [hnil]
    · rw [if_neg h, hf]
  · simp [TimeStamp.copy_times]
  · unfold TimeStamp.copy_times
    by_cases h : other.timeList.isEmpty
    · rw [if_pos h]; exact ⟨[], by simp⟩
    · rw [if_neg h]
      exact copy_times_fold_markList (other.timeList.zip other.markList) s

/-- The source's per-counter step of import_times does exactly what the spec's
sentence describes. -/
theorem import_times_step_eq_spec (c : Nat) (st : TimeStamp) (t : ℚ) (m : String) :
    TimeStamp.import_times_step c st t m = specMergeNestedStep c st t m := by
  unfold TimeStamp.import_times_step specMergeNestedStep npNonzeroPairEq
  by_cases h : 0 < st.otherMark.length
  · rw [if_pos h]
    dsimp only
    rw [head?_idxWhere]
  · rw [if_neg h]
    have hnil : st.otherMark = [] := by
      cases hx : st.otherMark with
      | nil => rfl
      | cons y ys => rw [hx] at h; simp at h
    simp [hnil, firstIdx]

/-- C2: mergeNested(other) — the anchor is len(self.counters) at call time and
each counter (label, t) of other.counters is, in order, added onto the
attachment with the same label and anchor when one exists, else appended as a
new attachment triple (equality with the spec-side definition); the call is a
no-op when other has no counters; and the attachments of the other recorder
are never read, so they are never imported. -/
theorem c2_mergeNested_correct (s other : TimeStamp) :
    s.import_times other = specMergeNested s other ∧
    s.import_times { other with timeList := [] } = s ∧
    (∀ a b c, s.import_times
        { other with otherTime := a, otherMark := b, otherInd := c }
      = s.import_times other) := by
  have hf : (fun (st : TimeStamp) (p : ℚ × String) =>
              TimeStamp.import_times_step s.timeList.length st p.1 p.2)
          = (fun st p => specMergeNestedStep s.timeList.length st p.1 p.2) := by
    funext st p; exact import_times_step_eq_spec s.timeList.length st p.1 p.2
  refine ⟨?_, ?_, fun a b c => rfl⟩
  · unfold TimeStamp.import_times specMergeNested
    by_cases h : other.timeList.isEmpty
    · rw [if_pos h]
      have hnil : other.timeList = [] := by simpa using h
      simp [hnil]
    · rw [if_neg h, hf]
  · simp [TimeStamp.import_times]

/-- C3: getElapsed with a label present among the counters should return the
elapsed value of its first counter (0 right after declareCounters), but the
code compares the whole mark list with the string, which is always False, so
the lookup index array is empty and the call aborts instead of returning 0. -/
theorem c3_getElapsed_label_lookup_broken :
    ((TimeStamp.init 0 false).add_counters ["a", "b", "c"]).2.get_time (some "a")
      = Except.error Err.notFound := by rfl

/-- C4: accumulate by label on a counter that exists should add the open
interval onto it, but the same list-vs-string comparison makes the index array
empty and position 0 of it raises IndexError; nothing is mutated. -/
theorem c4_accumulate_label_lookup_broken :
    ((TimeStamp.init 0 false).add_counters ["a"]).2.increase_time 5 (some "a") none
      = (Except.error Err.indexError,
         ((TimeStamp.init 0 false).add_counters ["a"]).2) := by rfl

/-- C5: the raises-iff taxonomy fails in the direction "never fails when some
counter bears the label": a recorder holding the single counter ("x", 2) still
aborts on getElapsed("x"). -/
theorem c5_getElapsed_fails_despite_matching_counter :
    ((TimeStamp.init 0 false).set_time 2 "x").get_time (some "x")
      = Except.error Err.notFound := by rfl

/-- Everything collected by the set fold comes from the accumulator or the
list. -/
theorem mem_pySet_foldl {xs : List String} :
    ∀ {acc : List String} {y : String},
      y ∈ xs.foldl pySetStep acc → y ∈ acc ∨ y ∈ xs := by
  induction xs with
  | nil => intro acc y h; exact Or.inl h
  | cons x xs ih =>
      intro acc y h
      rw [List.foldl_cons] at h
      rcases ih h with h1 | h2
      · unfold pySetStep at h1
        by_cases hx : x ∈ acc
        · rw [if_pos hx] at h1; exact Or.inl h1
        · rw [if_neg hx] at h1
          rcases List.mem_append.mp h1 with h3 | h3
          · exact Or.inl h3
          · exact Or.inr (by simpa using Or.inl (List.mem_singleton.mp h3))
      · exact Or.inr (List.mem_cons_of_mem x h2)

/-- Every element of set(xs) is an element of xs. -/
theorem mem_of_mem_pySet {xs : List String} {y : String} (h : y ∈ pySet xs) :
    y ∈ xs := by
  rcases mem_pySet_foldl h with h1 | h2
  · cases h1
  · exact h2

/-- The set fold keeps a nonempty accumulator nonempty. -/
theorem pySet_foldl_ne_nil {xs : List String} :
    ∀ {acc : List String}, acc ≠ [] → xs.foldl pySetStep acc ≠ [] := by
  induction xs with
  | nil => intro acc h; simpa using h
  | cons x xs ih =>
      intro acc h
      rw [List.foldl_cons]
      apply ih
      unfold pySetStep
      by_cases hx : x ∈ acc
      · rw [if_pos hx]; exact h
      · rw [if_neg hx]; simp

/-- set(xs) of a nonempty list is nonempty. -/
theorem pySet_ne_nil {xs : List String} (h : xs ≠ []) : pySet xs ≠ [] := by
  cases xs with
  | nil => exact absurd rfl h
  | cons x xs =>
      unfold pySet
      rw [List.foldl_cons]
      exact pySet_foldl_ne_nil (by simp [pySetStep])

/-- When every mark of the list occurs among the sub-counter marks, the
sub-mode loop succeeds and produces exactly one combined line per mark. -/
theorem foldlM_subLineStep_ok (s : TimeStamp) (l : List String)
    (hl : ∀ m ∈ l, m ∈ s.otherMark) :
    ∀ acc : List Line,
      l.foldlM (subLineStep s) acc
        = Except.ok (acc ++ l.map (fun m => Line.subSum m
            (((npNonzeroStrEq s.otherMark m).map (fun j => s.otherTime.getD j 0)).sum))) := by
  induction l with
  | nil =>
      intro acc
      rw [List.map_nil, List.append_nil]
      rfl
  | cons x l ih =>
      intro acc
      have hx : x ∈ s.otherMark := hl x (List.mem_cons_self x l)
      have hne : ¬ (npNonzeroStrEq s.otherMark x).isEmpty = true := by
        have h0 := idxWhere_ne_nil_of_mem hx 0
        simpa [npNonzeroStrEq, List.isEmpty_iff] using h0
      have hstep : subLineStep s acc x
          = Except.ok (acc ++ [Line.subSum x
              (((npNonzeroStrEq s.otherMark x).map (fun j => s.otherTime.getD j 0)).sum)]) := by
        unfold subLineStep
        rw [if_neg hne]
      rw [List.foldlM_cons, hstep]
      have hbind : ∀ (a : List Line) (f : List Line → Except Err (List Line)),
          Except.ok a >>= f = f a := fun a f => rfl
      rw [hbind]
      rw [ih (fun m hm => hl m (List.mem_cons_of_mem x hm))]
      simp

/-- The sub-mode loop can only fail through its internal consistency check. -/
theorem foldlM_subLineStep_error (s : TimeStamp) (l : List String) :
    ∀ (acc : List Line) (e : Err),
      l.foldlM (subLineStep s) acc = Except.error e → e = Err.notFound := by
  induction l with
  | nil => intro acc e h; exact Except.noConfusion h
  | cons x l ih =>
      intro acc e h
      by_cases hx : (npNonzeroStrEq s.otherMark x).isEmpty = true
      · have hstep : subLineStep s acc x = Except.error Err.notFound := by
          unfold subLineStep
          rw [if_pos hx]
        rw [List.foldlM_cons, hstep] at h
        have hred : (Except.error Err.notFound : Except Err (List Line)) >>=
            (fun acc2 => l.foldlM (subLineStep s) acc2) = Except.error Err.notFound := rfl
        rw [hred] at h
        injection h with h2
        exact h2.symm
      · have hstep : subLineStep s acc x
            = Except.ok (acc ++ [Line.subSum x
                (((npNonzeroStrEq s.otherMark x).map (fun j => s.otherTime.getD j 0)).sum)]) := by
          unfold subLineStep
          rw [if_neg hx]
        rw [List.foldlM_cons, hstep] at h
        have hbind : ∀ (a : List Line) (f : List Line → Except Err (List Line)),
            Except.ok a >>= f = f a := fun a f => rfl
        rw [hbind] at h
        exact ih _ e h

/-- pyMaxByLen can only fail with ValueError. -/
theorem pyMaxByLen_error {l : List String} {e : Err}
    (h : pyMaxByLen l = Except.error e) : e = Err.valueError := by
  cases l with
  | nil =>
      have hval : pyMaxByLen [] = Except.error Err.valueError := rfl
      rw [hval] at h
      injection h with h2
      exact h2.symm
  | cons x xs => simp [pyMaxByLen] at h

/-- The summed time of a mark's sub-counters, computed over the index list, is
the sum over the (mark, time) pairs matching the mark, provided the two
parallel lists have equal length. -/
theorem idxWhere_sum_eq_zipFilter (m : String) :
    ∀ (marks : List String) (times : List ℚ), marks.length = times.length →
      ((idxWhere (fun x => x == m) marks 0).map (fun j => times.getD j 0)).sum
        = (((marks.zip times).filter (fun q => q.1 == m)).map Prod.snd).sum := by
  intro marks
  induction marks with
  | nil => intro times h; simp [idxWhere]
  | cons x ms ih =>
      intro times h
      cases times with
      | nil => simp at h
      | cons t ts =>
          have hlen : ms.length = ts.length := by simpa using h
          have hshift := idxWhere_shift (fun x => x == m) ms 0
          by_cases hx : (x == m) = true <;>
            simp [idxWhere, hx, hshift, List.map_map, Function.comp_def,
                  List.getElem?_cons_succ] <;>
            simpa using ih ts hlen

/-- print_time_usage leaves the object either untouched (rejected mode) or
with only the display fields replaced; the counters, the attachments and the
clock mark survive every path, successful or failed. -/
theorem print_time_usage_state (s : TimeStamp) (cap : Option String) (mode : String)
    (mi pe : Bool) :
    (s.print_time_usage cap mode mi pe).2.2 = s ∨
    (s.print_time_usage cap mode mi pe).2.2
      = { s with minutes := mi, percent := pe, fullTime := s.timeList.sum } := by
  unfold TimeStamp.print_time_usage
  by_cases hmode : ¬ (mode = "detailed" ∨ mode = "top" ∨ mode = "sub")
  · rw [if_pos hmode]
    exact Or.inl rfl
  · rw [if_neg hmode]
    dsimp only
    by_cases h2 : mode = "detailed" ∨ mode = "top"
    · rw [if_pos h2]
      cases pyMaxByLen s.markList <;> exact Or.inr rfl
    · rw [if_neg h2]
      cases pyMaxByLen (pySet s.otherMark) with
      | error e => exact Or.inr rfl
      | ok v =>
          cases (pySet s.otherMark).foldlM
              (subLineStep { s with minutes := mi, percent := pe,
                                    fullTime := s.timeList.sum }) [] <;>
            exact Or.inr rfl

/-- C6: report — the caption carries the recorder's total, which is the sum of
the counters' elapsed values alone (in every recognized style, the header with
that total is among the printed lines even when a later step fails); and in
SubSummary style the body is exactly one combined line per distinct attachment
label, whose value is the sum of the elapsed values of every attachment with
that label, whatever its anchor index. -/
theorem c6_report_total_and_subSummary (s : TimeStamp) (cap : Option String)
    (mi pe : Bool) (hwf : s.otherMark.length = s.otherTime.length)
    (hne : s.otherMark ≠ []) :
    s.print_time_usage cap "sub" mi pe
      = (reportHeader cap s.timeList.sum mi
          ++ (pySet s.otherMark).map (fun m => Line.subSum m
               ((((s.otherMark.zip s.otherTime).filter
                   (fun q => q.1 == m)).map Prod.snd).sum))
          ++ [Line.rule, Line.blank],
         Except.ok (),
         { s with minutes := mi, percent := pe, fullTime := s.timeList.sum }) ∧
    Line.caption (cap.getD "Finished ") s.timeList.sum mi
      ∈ (s.print_time_usage cap "detailed" mi pe).1 ∧
    Line.caption (cap.getD "Finished ") s.timeList.sum mi
      ∈ (s.print_time_usage cap "top" mi pe).1 := by
  refine ⟨?_, ?_, ?_⟩
  · unfold TimeStamp.print_time_usage
    rw [if_neg (by simp)]
    rw [if_neg (by decide)]
    dsimp only
    cases hps : pySet s.otherMark with
    | nil => exact absurd hps (pySet_ne_nil hne)
    | cons hd tl =>
        have hok : pyMaxByLen (hd :: tl) = Except.ok
            (tl.foldl (fun best y => if best.length < y.length then y else best) hd) := rfl
        rw [hok]
        have hfold := foldlM_subLineStep_ok
          { s with minutes := mi, percent := pe, fullTime := s.timeList.sum }
          (hd :: tl)
          (by intro m hm
              rw [← hps] at hm
              exact mem_of_mem_pySet hm)
          []
        rw [hfold]
        rw [← hps]
        dsimp only
        have hfun : (fun m => Line.subSum m
              (((npNonzeroStrEq s.otherMark m).map (fun j => s.otherTime.getD j 0)).sum))
            = (fun m => Line.subSum m
              ((((s.otherMark.zip s.otherTime).filter
                  (fun q => q.1 == m)).map Prod.snd).sum)) := by
          funext m
          have hsum := idxWhere_sum_eq_zipFilter m s.otherMark s.otherTime hwf
          simp only [npNonzeroStrEq]
          rw [hsum]
        rw [List.nil_append, hfun]
  · unfold TimeStamp.print_time_usage
    rw [if_neg (by simp)]
    rw [if_pos (by simp)]
    dsimp only
    cases pyMaxByLen s.markList <;> simp [reportHeader]
  · unfold TimeStamp.print_time_usage
    rw [if_neg (by simp)]
    rw [if_pos (by simp)]
    dsimp only
    cases pyMaxByLen s.markList <;> simp [reportHeader]

/-- A recorder holding one counter ("main", 4) and two attachments labelled
"sub" with elapsed values 1 and 2 under anchor 0. -/
def c6state : TimeStamp :=
  { timeList := [4], markList := ["main"], prevTime := 0,
    otherTime := [1, 2], otherMark := ["sub", "sub"], otherInd := [0, 0],
    verbose := false, minutes := false, percent := false, fullTime := 0 }

/-- Witness for C6: on `c6state`, the SubSummary report prints the total 4
(the counter sum; the attachments 1 and 2 are excluded) and a single combined
line "sub" totalling 3. -/
theorem c6_report_total_and_subSummary_witness :
    (c6state.print_time_usage none "sub" false true).1
      = [Line.blank, Line.rule, Line.caption "Finished " 4 false, Line.rule,
         Line.subSum "sub" 3, Line.rule, Line.blank] ∧
    (c6state.print_time_usage none "sub" false true).2.1 = Except.ok () ∧
    (c6state.print_time_usage none "sub" false true).2.2.fullTime = 4 := by
  have h := (c6_report_total_and_subSummary c6state none false true
    (by decide) (by decide)).1
  refine ⟨?_, ?_, ?_⟩ <;> rw [h]
  · norm_num [c6state, reportHeader, pySet, pySetStep]
  · norm_num [c6state]

/-- C7: report validates the style first: an unrecognized style fails with
InvalidArgument before printing anything and before touching the state, and a
recognized style can never produce InvalidArgument. -/
theorem c7_report_style_validation (s : TimeStamp) (cap : Option String)
    (mode : String) (mi pe : Bool) :
    (¬ (mode = "detailed" ∨ mode = "top" ∨ mode = "sub") →
       s.print_time_usage cap mode mi pe = ([], Except.error Err.invalidArgument, s)) ∧
    ((mode = "detailed" ∨ mode = "top" ∨ mode = "sub") →
       (s.print_time_usage cap mode mi pe).2.1 ≠ Except.error Err.invalidArgument) := by
  constructor
  · intro h
    unfold TimeStamp.print_time_usage
    rw [if_pos h]
  · intro h hbad
    unfold TimeStamp.print_time_usage at hbad
    rw [if_neg (not_not_intro h)] at hbad
    dsimp only at hbad
    by_cases h2 : mode = "detailed" ∨ mode = "top"
    · rw [if_pos h2] at hbad
      cases hm : pyMaxByLen s.markList with
      | error e =>
          rw [hm] at hbad
          simp only [] at hbad
          have he : e = Err.invalidArgument := by
            injection hbad
          rw [pyMaxByLen_error hm] at he
          exact Err.noConfusion he
      | ok v =>
          rw [hm] at hbad
          exact Except.noConfusion hbad
    · rw [if_neg h2] at hbad
      cases hm : pyMaxByLen (pySet s.otherMark) with
      | error e =>
          rw [hm] at hbad
          have he : e = Err.invalidArgument := by
            injection hbad
          rw [pyMaxByLen_error hm] at he
          exact Err.noConfusion he
      | ok v =>
          rw [hm] at hbad
          cases hf : (pySet s.otherMark).foldlM
              (subLineStep { s with minutes := mi, percent := pe,
                                    fullTime := s.timeList.sum }) [] with
          | error e =>
              rw [hf] at hbad
              have he : e = Err.invalidArgument := by
                injection hbad
              rw [foldlM_subLineStep_error _ _ _ _ hf] at he
              exact Err.noConfusion he
          | ok body =>
              rw [hf] at hbad
              exact Except.noConfusion hbad

/-- Witness for C7: the unrecognized style "bogus" is rejected with
InvalidArgument and no output on a fresh recorder, and the recognized style
"top" does not produce InvalidArgument there (it fails with the ValueError of
C10 instead). -/
theorem c7_report_style_validation_witness :
    (¬ (("bogus" : String) = "detailed" ∨ ("bogus" : String) = "top" ∨
        ("bogus" : String) = "sub")) ∧
    (TimeStamp.init 0 false).print_time_usage none "bogus" false true
      = ([], Except.error Err.invalidArgument, TimeStamp.init 0 false) ∧
    ((TimeStamp.init 0 false).print_time_usage none "top" false true).2.1
      ≠ Except.error Err.invalidArgument := by
  refine ⟨by decide, ?_, ?_⟩
  · exact (c7_report_style_validation (TimeStamp.init 0 false) none "bogus" false true).1
      (by decide)
  · exact (c7_report_style_validation (TimeStamp.init 0 false) none "top" false true).2
      (by decide)

/-- C8: failure atomicity — whenever an operation fails (with any of the
modelled errors), the counters, the attachments and the clock mark are exactly
what they were before the call; only the transient display fields of a failed
report may differ. -/
theorem c8_failure_atomicity (s : TimeStamp) (op : Op) (e : Err)
    (h : (runOp s op).1 = Except.error e) :
    (runOp s op).2.timeList = s.timeList ∧
    (runOp s op).2.markList = s.markList ∧
    (runOp s op).2.otherTime = s.otherTime ∧
    (runOp s op).2.otherMark = s.otherMark ∧
    (runOp s op).2.otherInd = s.otherInd ∧
    (runOp s op).2.prevTime = s.prevTime := by
  cases op with
  | stamp now m => simp [runOp] at h
  | reset now => simp [runOp] at h
  | declare marks => simp [runOp] at h
  | accumulate now m i =>
      cases i with
      | some j =>
          by_cases hlt : j < s.timeList.length
          · simp [runOp, TimeStamp.increase_time, hlt] at h
          · simp [runOp, TimeStamp.increase_time, hlt]
      | none =>
          cases m with
          | some mk => simp [runOp, TimeStamp.increase_time, npNonzeroScalar, pyListEqStr]
          | none => simp [runOp, TimeStamp.increase_time]
  | mergeFlat o => simp [runOp] at h
  | mergeNested o => simp [runOp] at h
  | getElapsed om =>
      cases hg : s.get_time om with
      | ok v => simp [runOp, hg] at h
      | error e2 => simp [runOp, hg]
  | report c mode mi pe =>
      have heq : (runOp s (Op.report c mode mi pe)).2
          = (s.print_time_usage c mode mi pe).2.2 := rfl
      rcases print_time_usage_state s c mode mi pe with hst | hst <;>
        rw [heq, hst] <;> simp

/-- Witness for C8: accumulate with neither label nor index fails with
InvalidArgument and leaves the fresh recorder's clock mark unchanged. -/
theorem c8_failure_atomicity_witness :
    (runOp (TimeStamp.init 3 false) (Op.accumulate 7 none none)).1
        = Except.error Err.invalidArgument ∧
    (runOp (TimeStamp.init 3 false) (Op.accumulate 7 none none)).2.prevTime
        = (TimeStamp.init 3 false).prevTime := by
  have h : (runOp (TimeStamp.init 3 false) (Op.accumulate 7 none none)).1
      = Except.error Err.invalidArgument := rfl
  exact ⟨h, (c8_failure_atomicity (TimeStamp.init 3 false)
    (Op.accumulate 7 none none) Err.invalidArgument h).2.2.2.2.2⟩

/-- Folding the import step never changes the mark list. -/
theorem import_times_fold_markList (c : Nat) (l : List (ℚ × String)) :
    ∀ st : TimeStamp,
      (l.foldl (fun st p => TimeStamp.import_times_step c st p.1 p.2) st).markList
        = st.markList := by
  induction l with
  | nil => intro st; rfl
  | cons p l ih =>
      intro st
      rw [List.foldl_cons, ih]
      unfold TimeStamp.import_times_step
      dsimp only
      split <;> rfl

/-- Folding the add_counters step only appends to the mark list. -/
theorem add_counters_fold_markList (marks : List String) :
    ∀ a : List Nat × TimeStamp, ∃ t,
      a.2.markList ++ t = ((marks.foldl TimeStamp.add_counters_step a).2).markList := by
  induction marks with
  | nil => intro a; exact ⟨[], by simp⟩
  | cons mk marks ih =>
      intro a
      obtain ⟨t2, ht2⟩ := ih (TimeStamp.add_counters_step a mk)
      refine ⟨[mk] ++ t2, ?_⟩
      rw [List.foldl_cons, ← ht2]
      show a.2.markList ++ ([mk] ++ t2) = (a.2.markList ++ [mk]) ++ t2
      rw [List.append_assoc]

/-- C9: append-only — under every operation of the recorder the old sequence
of counter labels starts the new one: counters are never removed or reordered,
and the index a counter got keeps pointing at it. -/
theorem c9_counters_append_only (s : TimeStamp) (op : Op) :
    ∃ t, s.markList ++ t = (runOp s op).2.markList := by
  cases op with
  | stamp now m => exact ⟨[m], rfl⟩
  | reset now => exact ⟨[], by simp [runOp, TimeStamp.start_time]⟩
  | declare marks =>
      have h := add_counters_fold_markList marks ([], s)
      simpa [runOp, TimeStamp.add_counters] using h
  | accumulate now m i =>
      refine ⟨[], ?_⟩
      rw [List.append_nil]
      cases i with
      | some j =>
          by_cases hlt : j < s.timeList.length <;>
            simp [runOp, TimeStamp.increase_time, hlt]
      | none =>
          cases m with
          | some mk => simp [runOp, TimeStamp.increase_time, npNonzeroScalar, pyListEqStr]
          | none => simp [runOp, TimeStamp.increase_time]
  | mergeFlat o =>
      simp only [runOp]
      unfold TimeStamp.copy_times
      by_cases h : o.timeList.isEmpty
      · rw [if_pos h]; exact ⟨[], by simp⟩
      · rw [if_neg h]
        exact copy_times_fold_markList (o.timeList.zip o.markList) s
  | mergeNested o =>
      refine ⟨[], ?_⟩
      rw [List.append_nil]
      simp only [runOp]
      unfold TimeStamp.import_times
      by_cases h : o.timeList.isEmpty
      · rw [if_pos h]
      · rw [if_neg h]
        exact (import_times_fold_markList s.timeList.length _ s).symm
  | getElapsed om =>
      cases hg : s.get_time om with
      | ok v => exact ⟨[], by simp [runOp, hg]⟩
      | error e2 => exact ⟨[], by simp [runOp, hg]⟩
  | report c mode mi pe =>
      refine ⟨[], ?_⟩
      rw [List.append_nil]
      have heq : (runOp s (Op.report c mode mi pe)).2
          = (s.print_time_usage c mode mi pe).2.2 := rfl
      rcases print_time_usage_state s c mode mi pe with hst | hst <;> rw [heq, hst]

/-- C10: report crashes outside the spec's error taxonomy on empty data — with
no counters, detailed and top styles die in max() over the empty label list
(ValueError); with no attachments, sub style dies in max() over the empty set
of sub-counter labels. -/
theorem c10_report_crashes_on_empty (s : TimeStamp) (cap : Option String)
    (mi pe : Bool) :
    (s.markList = [] →
      (s.print_time_usage cap "detailed" mi pe).2.1 = Except.error Err.valueError ∧
      (s.print_time_usage cap "top" mi pe).2.1 = Except.error Err.valueError) ∧
    (s.otherMark = [] →
      (s.print_time_usage cap "sub" mi pe).2.1 = Except.error Err.valueError) := by
  constructor
  · intro hc
    constructor <;>
      · unfold TimeStamp.print_time_usage
        rw [if_neg (by simp)]
        rw [if_pos (by simp)]
        dsimp only
        rw [hc]
        rfl
  · intro ha
    unfold TimeStamp.print_time_usage
    rw [if_neg (by simp)]
    rw [if_neg (by decide)]
    dsimp only
    rw [ha]
    rfl

/-- Witness for C10: a fresh recorder (no counters, no attachments) fails in
all three recognized report styles with the ValueError of max() over an empty
sequence. -/
theorem c10_report_crashes_on_empty_witness :
    (TimeStamp.init 0 false).markList = [] ∧
    (TimeStamp.init 0 false).otherMark = [] ∧
    ((TimeStamp.init 0 false).print_time_usage none "detailed" true false).2.1
        = Except.error Err.valueError ∧
    ((TimeStamp.init 0 false).print_time_usage none "top" true false).2.1
        = Except.error Err.valueError ∧
    ((TimeStamp.init 0 false).print_time_usage none "sub" true false).2.1
        = Except.error Err.valueError := by
  have h := c10_report_crashes_on_empty (TimeStamp.init 0 false) none true false
  exact ⟨rfl, rfl, (h.1 rfl).1, (h.1 rfl).2, h.2 rfl⟩
